import Mathlib

/-!
Verification of the markdown-table extraction engine `parse_agent_output`
(`src/services/case_parser.py`).  The parser is shallowly embedded over
`List Char` (Python strings are sequences of unicode code points).  The
module-level compiled regular expressions of the source are embedded as
executable matchers with Python `re` leftmost / greedy / lazy semantics:

  SECTION_HEADER_RE = ^\s*##+\s+(.+)$   (MULTILINE, finditer)
  EMOJI_RE          = [U+1F300-U+1FAFF U+2500-U+2BEF]+  (sub "")
  SCENARIO_RE       = \*\*(.+?)\*\*\s*[EN/EM-DASH or -]\s*(.+)  (search)
  DRIVER_SPLIT_RE   = \s*(?:\+|,|;|/| i | and )\s*  (IGNORECASE, split)
  INDEX_CELL_RE     = ^\d+(\.\d+)?$     (match)

Whitespace is modelled by the ASCII whitespace set of Python's `\s`.
-/

/-- Python `\s` over the ASCII range (space, tab, newline, carriage return,
vertical tab, form feed). -/
def py_is_ws (c : Char) : Bool :=
  c = ' ' || c = '\t' || c = '\n' || c = '\r' || c = '\x0b' || c = '\x0c'

/-- Code points of a string (Python strings are code-point sequences). -/
def chars (s : String) : List Char := s.data

/-- Python `str.strip()` with no argument. -/
def py_strip (l : List Char) : List Char :=
  ((l.dropWhile py_is_ws).reverse.dropWhile py_is_ws).reverse

/-- Python `str.strip(ch)` for a one-character argument. -/
def strip_all_char (ch : Char) (l : List Char) : List Char :=
  ((l.dropWhile (fun c => c = ch)).reverse.dropWhile (fun c => c = ch)).reverse

/-- Python `str.strip(" .")` (used on driver tokens). -/
def strip_space_dot (l : List Char) : List Char :=
  ((l.dropWhile (fun c => c = ' ' || c = '.')).reverse.dropWhile
    (fun c => c = ' ' || c = '.')).reverse

/-- Python `str.split(sep)` for a one-character separator: split at every
occurrence, keeping empty pieces (`"".split("|") == [""]`). -/
def split_on_char (sep : Char) : List Char → List (List Char)
  | [] => [[]]
  | c :: rest =>
    match split_on_char sep rest with
    | h :: t => if c = sep then [] :: h :: t else (c :: h) :: t
    | [] => if c = sep then [[], []] else [[c]]

/-- Python `str.split()` with no argument: split on whitespace runs,
dropping empty pieces.  `acc` carries the current piece reversed. -/
def ws_split_aux : List Char → List Char → List (List Char)
  | [], acc => if acc.isEmpty then [] else [acc.reverse]
  | c :: rest, acc =>
    if py_is_ws c then
      if acc.isEmpty then ws_split_aux rest []
      else acc.reverse :: ws_split_aux rest []
    else ws_split_aux rest (c :: acc)

def py_split_ws (l : List Char) : List (List Char) := ws_split_aux l []

/-- Python `" ".join(l.split())`: collapse whitespace runs and trim. -/
def collapse_join (l : List Char) : List Char :=
  List.intercalate [' '] (py_split_ws l)

/-- Python `re.sub(r"\s+", " ", l)`: each whitespace run becomes one space,
leading/trailing runs included.  The flag records whether the previous
character was whitespace. -/
def collapse_ws_runs_aux : Bool → List Char → List Char
  | _, [] => []
  | prevWs, c :: rest =>
    if py_is_ws c then
      if prevWs then collapse_ws_runs_aux true rest
      else ' ' :: collapse_ws_runs_aux true rest
    else c :: collapse_ws_runs_aux false rest

def collapse_ws_runs (l : List Char) : List Char := collapse_ws_runs_aux false l

/-- Boolean list-prefix test. -/
def is_prefix_b : List Char → List Char → Bool
  | [], _ => true
  | _ :: _, [] => false
  | a :: as_, b :: bs => a = b && is_prefix_b as_ bs

/-- Python `sub in l`: substring containment. -/
def contains_sub (pat : List Char) : List Char → Bool
  | [] => pat.isEmpty
  | c :: rest => is_prefix_b pat (c :: rest) || contains_sub pat rest

/-- Python `str.replace(pat, rep)` (leftmost, non-overlapping), fuelled by
the string length; each step consumes at least one character. -/
def replace_sub_aux (pat rep : List Char) : Nat → List Char → List Char
  | _, [] => []
  | 0, l => l
  | fuel + 1, c :: rest =>
    if is_prefix_b pat (c :: rest) then
      rep ++ replace_sub_aux pat rep fuel (rest.drop (pat.length - 1))
    else c :: replace_sub_aux pat rep fuel rest

def replace_sub (pat rep l : List Char) : List Char :=
  replace_sub_aux pat rep l.length l

/-- Python `str.replace(a, b)` for one-character a and b. -/
def replace_char (a b : Char) (l : List Char) : List Char :=
  l.map (fun c => if c = a then b else c)

/-- Python `str.lower()` restricted to the ASCII and basic Cyrillic letters
(the only code points whose case matters to `_normalize_header_text`). -/
def py_lower (c : Char) : Char :=
  if 'A' ≤ c ∧ c ≤ 'Z' then Char.ofNat (c.toNat + 32)
  else if 'А' ≤ c ∧ c ≤ 'Я' then Char.ofNat (c.toNat + 32)
  else if c = 'Ё' then 'ё'
  else c

/-- Membership in the regex class `[0-9a-zA-ZА-Яа-я]`. -/
def is_header_keep_char (c : Char) : Bool :=
  ('0' ≤ c && c ≤ '9') || ('a' ≤ c && c ≤ 'z') || ('A' ≤ c && c ≤ 'Z') ||
  ('А' ≤ c && c ≤ 'Я') || ('а' ≤ c && c ≤ 'я')

/-- EMOJI_RE character class: U+1F300-U+1FAFF and U+2500-U+2BEF. -/
def is_emoji_char (c : Char) : Bool :=
  (0x1F300 ≤ c.toNat && c.toNat ≤ 0x1FAFF) ||
  (0x2500 ≤ c.toNat && c.toNat ≤ 0x2BEF)

/-- Python `str.splitlines()` line-break set (ASCII part plus the unicode
breaks NEL, LS, PS). -/
def is_line_break (c : Char) : Bool :=
  c = '\n' || c = '\r' || c = '\x0b' || c = '\x0c' ||
  c = '\x1c' || c = '\x1d' || c = '\x1e' || c = '\x85' ||
  c = '\u2028' || c = '\u2029'

/-- Python `str.splitlines()`; `\r\n` counts as a single break and a final
break produces no trailing empty line. -/
def py_splitlines_aux : List Char → List Char → List (List Char)
  | [], acc => if acc.isEmpty then [] else [acc.reverse]
  | '\r' :: '\n' :: rest, acc => acc.reverse :: py_splitlines_aux rest []
  | c :: rest, acc =>
    if is_line_break c then acc.reverse :: py_splitlines_aux rest []
    else py_splitlines_aux rest (c :: acc)

def py_splitlines (l : List Char) : List (List Char) := py_splitlines_aux l []

/-- Python `enumerate(l, i)`. -/
def enum_from {α : Type} (i : Nat) : List α → List (Nat × α)
  | [] => []
  | a :: rest => (i, a) :: enum_from (i + 1) rest

/-- Python `next((i for i, x in enumerate(l, i0) if p x), None)`. -/
def find_idx_from {α : Type} (p : α → Bool) : List α → Nat → Option Nat
  | [], _ => none
  | a :: rest, i => if p a then some i else find_idx_from p rest (i + 1)

/-- INDEX_CELL_RE body `\d+(\.\d+)?` against the whole string. -/
def index_core_match (l : List Char) : Bool :=
  let d := l.takeWhile Char.isDigit
  let r := l.dropWhile Char.isDigit
  if d.length = 0 then false
  else
    match r with
    | [] => true
    | '.' :: r2 => !r2.isEmpty && r2.all Char.isDigit
    | _ => false

/-- Python `INDEX_CELL_RE.match(l)` as a Bool; `$` also matches just before
a final newline. -/
def index_cell_match (l : List Char) : Bool :=
  index_core_match l ||
    (match l.getLast? with
     | some '\n' => index_core_match l.dropLast
     | _ => false)

/-- One attempt of SECTION_HEADER_RE at position `p` of `s` (which the
caller guarantees is a MULTILINE `^` position).  Greedy `\s*`, `##+` and
`\s+` are deterministic because `#` is not whitespace; when `\s+(.+)$` has
consumed everything, the engine backtracks `\s+` to its longest split
leaving a non-newline character for `.+` (then everything after that
character inside the run is `\n`, so the group is that one character).
Returns `(match_end, group1)`. -/
def match_heading_from (s : List Char) (p : Nat) : Option (Nat × List Char) :=
  let t := s.drop p
  let a := t.takeWhile py_is_ws
  let t1 := t.dropWhile py_is_ws
  let b := t1.takeWhile (fun c => c = '#')
  let t2 := t1.dropWhile (fun c => c = '#')
  if b.length < 2 then none
  else
    let c := t2.takeWhile py_is_ws
    let t3 := t2.dropWhile py_is_ws
    if c.length = 0 then none
    else
      match t3 with
      | [] =>
        match ((c.drop 1).reverse).dropWhile (fun x => x = '\n') with
        | [] => none
        | k :: kt => some (p + a.length + b.length + (k :: kt).length + 1, [k])
      | _ :: _ =>
        let g := t3.takeWhile (fun x => ¬ x = '\n')
        some (p + a.length + b.length + c.length + g.length, g)

/-- Is `p` a MULTILINE `^` position of `s`? -/
def line_start_b (s : List Char) (p : Nat) : Bool :=
  decide (p = 0) || decide (s.get? (p - 1) = some '\n')

/-- Scan of `SECTION_HEADER_RE.finditer`: positions are tried left to
right, a successful match is emitted and scanning resumes at its end.
Each step advances the position, so `s.length + 1` fuel suffices. -/
def section_matches_aux (s : List Char) : Nat → Nat → List (Nat × Nat × List Char)
  | 0, _ => []
  | fuel + 1, p =>
    if s.length ≤ p then []
    else
      if line_start_b s p then
        match match_heading_from s p with
        | some (e, g) => (p, e, g) :: section_matches_aux s fuel e
        | none => section_matches_aux s fuel (p + 1)
      else section_matches_aux s fuel (p + 1)

/-- Python `list(SECTION_HEADER_RE.finditer(s))` as
`(start, end, group 1)` triples. -/
def section_header_matches (s : List Char) : List (Nat × Nat × List Char) :=
  section_matches_aux s (s.length + 1) 0

def is_dash_char (c : Char) : Bool := c = '–' || c = '—' || c = '-'

/-- Tail `\s*[–—-]\s*(.+)` of SCENARIO_RE, applied after the closing
`\*\*`; returns group 2.  The second `\s*` backtracks (possibly to an
empty match) when everything to the line end is whitespace. -/
def scenario_tail (t : List Char) : Option (List Char) :=
  match t.dropWhile py_is_ws with
  | [] => none
  | d :: rest =>
    if is_dash_char d then
      match rest.dropWhile py_is_ws with
      | [] =>
        match ((rest.takeWhile py_is_ws).reverse).dropWhile (fun x => x = '\n') with
        | [] => none
        | k :: _ => some [k]
      | v0 :: vrest => some ((v0 :: vrest).takeWhile (fun x => ¬ x = '\n'))
    else none

/-- Lazy `(.+?)\*\*` of SCENARIO_RE: extend group 1 one character at a
time (never over a newline); at each closing `\*\*` try the tail and keep
extending on failure.  Returns `(group1, group2)`. -/
def scen_after_open : Nat → List Char → List Char → Option (List Char × List Char)
  | 0, _, _ => none
  | _ + 1, _, [] => none
  | fuel + 1, g1rev, c :: rest =>
    if c = '\n' then none
    else
      match rest with
      | '*' :: '*' :: after =>
        (match scenario_tail after with
         | some g2 => some ((c :: g1rev).reverse, g2)
         | none => scen_after_open fuel (c :: g1rev) rest)
      | _ => scen_after_open fuel (c :: g1rev) rest

/-- Python `SCENARIO_RE.search(l)`: leftmost opening `\*\*` wins, the lazy
group is shortest-first. -/
def scenario_search_aux : Nat → List Char → Option (List Char × List Char)
  | 0, _ => none
  | fuel + 1, t =>
    match t with
    | '*' :: '*' :: rest =>
      (match scen_after_open (rest.length + 1) [] rest with
       | some r => some r
       | none => scenario_search_aux fuel ('*' :: rest))
    | _ :: rest => scenario_search_aux fuel rest
    | [] => none

def scenario_search (l : List Char) : Option (List Char × List Char) :=
  scenario_search_aux l.length l

/-- Alternation `\+|,|;|/| и | and ` (IGNORECASE) at the head of `t`,
tried left to right; returns the matched length. -/
def driver_alt_at (t : List Char) : Option Nat :=
  match t with
  | '+' :: _ => some 1
  | ',' :: _ => some 1
  | ';' :: _ => some 1
  | '/' :: _ => some 1
  | ' ' :: c1 :: rest1 =>
    if py_lower c1 = 'и' ∧ rest1.take 1 = [' '] then some 3
    else
      match rest1 with
      | c2 :: c3 :: ' ' :: _ =>
        if py_lower c1 = 'a' ∧ py_lower c2 = 'n' ∧ py_lower c3 = 'd' then some 5
        else none
      | _ => none
  | _ => none

/-- Greedy leading `\s*` of DRIVER_SPLIT_RE with backtracking: try the
longest whitespace prefix first, then shorter ones, until the alternation
matches; then consume the greedy trailing `\s*`. -/
def driver_try_ws (s : List Char) : Nat → Option Nat
  | 0 =>
    (driver_alt_at s).map (fun L => L + ((s.drop L).takeWhile py_is_ws).length)
  | w + 1 =>
    match driver_alt_at (s.drop (w + 1)) with
    | some L =>
      some (w + 1 + L + (((s.drop (w + 1 + L)).takeWhile py_is_ws).length))
    | none => driver_try_ws s w

/-- Length of the DRIVER_SPLIT_RE match anchored at the head of `s`. -/
def driver_match_at (s : List Char) : Option Nat :=
  driver_try_ws s (s.takeWhile py_is_ws).length

/-- Python `DRIVER_SPLIT_RE.split(s)`: cut at each leftmost match (every
match is non-empty, so `length + 1` fuel suffices). -/
def driver_split_aux : Nat → List Char → List Char → List (List Char)
  | 0, s, acc => [acc.reverse ++ s]
  | fuel + 1, s, acc =>
    match driver_match_at s with
    | some e => acc.reverse :: driver_split_aux fuel (s.drop e) []
    | none =>
      match s with
      | [] => [acc.reverse]
      | c :: rest => driver_split_aux fuel rest (c :: acc)

def driver_split (l : List Char) : List (List Char) :=
  driver_split_aux (l.length + 1) l []

/-- Record for the `payload["case"]` mapping. -/
structure CaseData where
  region_name : String
  sector_name : String
  title : String
  summary : String
  detailed_notes : Option String
  key_effect_note : String
deriving DecidableEq, Repr

/-- Record for one entry of `payload["economic_effects"]`. -/
structure EconomicEffect where
  effect_type : String
  value_numeric : Option Int
  currency : Option String
  period_note : String
deriving DecidableEq, Repr

/-- One element of the list returned by `parse_agent_output`. -/
structure Payload where
  case_data : CaseData
  economic_effects : List EconomicEffect
  technology_drivers : List String
deriving DecidableEq, Repr

/-- Inner `_strip_markdown`: drop `**`, `__` and backtick markers,
normalise en/em dashes to `-`, collapse whitespace. -/
def strip_markdown (text : List Char) : List Char :=
  let c1 := replace_sub (chars "**") [] text
  let c2 := replace_sub (chars "__") [] c1
  let c3 := replace_sub [Char.ofNat 96] [] c2
  let c4 := replace_char '–' '-' c3
  let c5 := replace_char '—' '-' c4
  collapse_join c5

/-- Inner `_clean_region_name`: `EMOJI_RE.sub("", raw).strip()` then
whitespace collapse. -/
def clean_region_name (raw : List Char) : List Char :=
  collapse_join (py_strip (raw.filter (fun c => ¬ is_emoji_char c)))

/-- Leftmost match of `re.split(r"\s*-\s*", l, maxsplit=1)`: the first
`-` wins (any earlier start would need a `-` inside the preceding
whitespace run), extended greedily over adjacent whitespace. -/
def dash_split_once (l : List Char) : List (List Char) :=
  match find_idx_from (fun c : Char => c = '-') l 0 with
  | none => [l]
  | some d =>
    [((l.take d).reverse.dropWhile py_is_ws).reverse,
     (l.drop (d + 1)).dropWhile py_is_ws]

/-- Inner `_extract_title_and_summary`. -/
def extract_title_and_summary (cell : List Char) : List Char × List Char :=
  match scenario_search cell with
  | some (g1, g2) => (strip_markdown g1, py_strip g2)
  | none =>
    let stripped := strip_markdown cell
    match dash_split_once stripped with
    | [a, b] => (py_strip a, py_strip b)
    | _ => (stripped, [])

/-- Inner `_parse_technology_drivers`.  Both `replace` calls of the source
rewrite U+202F (the second one spells the character literally). -/
def parse_technology_drivers (cell : List Char) : List (List Char) :=
  if cell.isEmpty then []
  else
    let normalized := replace_char '\u202F' ' ' (replace_char '\u202F' ' ' cell)
    let candidates :=
      (driver_split normalized).map (fun item => strip_space_dot (collapse_ws_runs item))
    candidates.filter (fun c => !c.isEmpty)

/-- Inner `_build_effects`. -/
def build_effects (effect_text : List Char) : List EconomicEffect :=
  let cleaned := strip_markdown effect_text
  if cleaned.isEmpty then []
  else
    [{ effect_type := "text_note", value_numeric := none, currency := none,
       period_note := String.mk cleaned }]

/-- Inner `_normalize_header_text`: lowercase, then the composed effect of
`re.sub("[^0-9a-zA-ZА-Яа-я]+", " ", ·)`, `re.sub("\s+", " ", ·)` and
`strip()` — keep-class runs joined by single spaces. -/
def normalize_header_text (header : List Char) : List Char :=
  collapse_join ((header.map py_lower).map
    (fun c => if is_header_keep_char c then c else ' '))

/-- Inner `_find_column_index`. -/
def find_column_index (headers : List (List Char)) (keywords : List (List Char)) :
    Option Nat :=
  find_idx_from (fun h => keywords.any (fun k => contains_sub k h)) headers 0

/-- Inner `_safe_get` (total: out-of-range and `None` yield `""`). -/
def safe_get (cells : List (List Char)) (idx : Option Nat) : List Char :=
  match idx with
  | none => []
  | some i => if i < cells.length then (cells.get? i).getD [] else []

/-- Cell list of a table row:
`[cell.strip() for cell in line.strip().strip("|").split("|")]`. -/
def row_cells (line : List Char) : List (List Char) :=
  (split_on_char '|' (strip_all_char '|' (py_strip line))).map py_strip

def sector_keywords : List (List Char) := [chars "сектор", chars "sector"]
def scenario_keywords : List (List Char) :=
  [chars "сценарий", chars "описание", chars "scenario", chars "description"]
def effect_keywords : List (List Char) := [chars "эконом", chars "эффект", chars "effect"]
def drivers_keywords : List (List Char) := [chars "драйвер", chars "driver", chars "технолог"]
def source_keywords : List (List Char) :=
  [chars "источник", chars "обоснован", chars "source", chars "reference"]

def header_marker : List Char := chars "| # "
def dash_marker : List Char := chars "---"

/-- Predicate selecting the header row: `"| # " in ln`. -/
def is_header_line (ln : List Char) : Bool := contains_sub header_marker ln

/-- Keep predicate of the data-line comprehensions:
`"---" not in ln and ln.strip().strip("|")`. -/
def keeps_data_line (ln : List Char) : Bool :=
  !contains_sub dash_marker ln && !(strip_all_char '|' (py_strip ln)).isEmpty

/-- Column indices and data rows of one section's table lines
(lines 109-141 of the source). -/
structure Resolved where
  data_lines : List (List Char)
  sector_idx : Option Nat
  scenario_idx : Option Nat
  effect_idx : Option Nat
  drivers_idx : Option Nat
  source_idx : Option Nat

def resolve_columns (table_lines : List (List Char)) : Resolved :=
  match find_idx_from is_header_line table_lines 0 with
  | none =>
    { data_lines := table_lines.filter keeps_data_line
      sector_idx := some 1, scenario_idx := some 2, effect_idx := some 3
      drivers_idx := none, source_idx := some 4 }
  | some header_idx =>
    let header_line := (table_lines.get? header_idx).getD []
    let normalized_headers := (row_cells header_line).map normalize_header_text
    { data_lines :=
        ((enum_from 0 table_lines).filter
          (fun p => decide (header_idx < p.1) && keeps_data_line p.2)).map Prod.snd
      sector_idx := find_column_index normalized_headers sector_keywords
      scenario_idx := find_column_index normalized_headers scenario_keywords
      effect_idx := find_column_index normalized_headers effect_keywords
      drivers_idx := find_column_index normalized_headers drivers_keywords
      source_idx := find_column_index normalized_headers source_keywords }

/-- Body of the `for line in data_lines` loop (lines 146-183): `None`
means `continue`. -/
def process_row (region_name : List Char)
    (sector_idx scenario_idx effect_idx drivers_idx source_idx : Option Nat)
    (line : List Char) : Option Payload :=
  let cells := row_cells line
  if ¬ index_cell_match (safe_get cells (some 0)) then none
  else
    let sector_name := strip_markdown (safe_get cells sector_idx)
    let scenario_cell := safe_get cells scenario_idx
    let effect_cell := safe_get cells effect_idx
    let driver_cell := safe_get cells drivers_idx
    let source_cell := safe_get cells source_idx
    if scenario_cell.isEmpty then none
    else
      let ts := extract_title_and_summary scenario_cell
      let effect_note := strip_markdown effect_cell
      let source_note := strip_markdown source_cell
      let technology_drivers :=
        if drivers_idx.isSome && !driver_cell.isEmpty
        then parse_technology_drivers driver_cell else []
      some
        { case_data :=
            { region_name := String.mk region_name
              sector_name := String.mk sector_name
              title := String.mk ts.1
              summary := String.mk (if ts.2.isEmpty then effect_note else ts.2)
              detailed_notes :=
                if source_note.isEmpty then none else some (String.mk source_note)
              key_effect_note := String.mk effect_note }
          economic_effects := build_effects effect_cell
          technology_drivers := technology_drivers.map String.mk }

/-- Python slice `s[a:b]`. -/
def slice_of (s : List Char) (a b : Nat) : List Char := (s.take b).drop a

/-- `[ln for ln in body.splitlines() if ln.strip().startswith("|")]` for
the body slice `s[a:b]`. -/
def table_lines_of (s : List Char) (a b : Nat) : List (List Char) :=
  (py_splitlines (slice_of s a b)).filter (fun ln => (py_strip ln).head? = some '|')

/-- One iteration of the `for idx, match in enumerate(section_matches)`
loop: the body slice runs from this match's end to the next match's start
(or the end of the document). -/
def process_section (s : List Char) (bodyStart bodyEnd : Nat) (headerGroup : List Char) :
    List Payload :=
  let header := py_strip headerGroup
  let region_name := clean_region_name header
  let table_lines := table_lines_of s bodyStart bodyEnd
  if table_lines.isEmpty then []
  else
    let r := resolve_columns table_lines
    if r.sector_idx.isNone || r.scenario_idx.isNone || r.effect_idx.isNone then []
    else
      r.data_lines.filterMap
        (process_row region_name r.sector_idx r.scenario_idx r.effect_idx
          r.drivers_idx r.source_idx)

/-- The section loop: each match contributes its payloads in order; the
next match's start bounds the current body. -/
def sections_payloads (s : List Char) : List (Nat × Nat × List Char) → List Payload
  | [] => []
  | m :: rest =>
    let bodyEnd := match rest with
      | m2 :: _ => m2.1
      | [] => s.length
    process_section s m.2.1 bodyEnd m.2.2 ++ sections_payloads s rest

def parse_core (s : List Char) : List Payload :=
  sections_payloads s (section_header_matches s)

/-- The public `parse_agent_output`. -/
def parse_agent_output (s : String) : List Payload := parse_core s.data

/-!
Exception model.  Every Python operation of `parse_agent_output` is total
except the two guarded list subscripts (`table_lines[header_idx]` and the
`cells[idx]` inside `_safe_get`).  The `_e` variants model those subscripts
with `List.get?`, propagating `none` as a raised `IndexError` would
propagate; `parse_agent_output_e = some ∘ parse_agent_output` states that
no input raises.
-/

def safe_get_e (cells : List (List Char)) (idx : Option Nat) : Option (List Char) :=
  match idx with
  | none => some []
  | some i => if i < cells.length then cells.get? i else some []

/-- The Python `for` accumulation over an exception-throwing body. -/
def map_m_e {α β : Type} (f : α → Option β) : List α → Option (List β)
  | [] => some []
  | a :: rest =>
    (f a).bind fun b => (map_m_e f rest).bind fun bs => some (b :: bs)

def process_row_e (region_name : List Char)
    (sector_idx scenario_idx effect_idx drivers_idx source_idx : Option Nat)
    (line : List Char) : Option (Option Payload) :=
  let cells := row_cells line
  (safe_get_e cells (some 0)).bind fun c0 =>
  if ¬ index_cell_match c0 then some none
  else
    (safe_get_e cells sector_idx).bind fun sector_cell =>
    (safe_get_e cells scenario_idx).bind fun scenario_cell =>
    (safe_get_e cells effect_idx).bind fun effect_cell =>
    (safe_get_e cells drivers_idx).bind fun driver_cell =>
    (safe_get_e cells source_idx).bind fun source_cell =>
    if scenario_cell.isEmpty then some none
    else
      let ts := extract_title_and_summary scenario_cell
      let effect_note := strip_markdown effect_cell
      let source_note := strip_markdown source_cell
      let technology_drivers :=
        if drivers_idx.isSome && !driver_cell.isEmpty
        then parse_technology_drivers driver_cell else []
      some (some
        { case_data :=
            { region_name := String.mk region_name
              sector_name := String.mk (strip_markdown sector_cell)
              title := String.mk ts.1
              summary := String.mk (if ts.2.isEmpty then effect_note else ts.2)
              detailed_notes :=
                if source_note.isEmpty then none else some (String.mk source_note)
              key_effect_note := String.mk effect_note }
          economic_effects := build_effects effect_cell
          technology_drivers := technology_drivers.map String.mk })

def resolve_columns_e (table_lines : List (List Char)) : Option Resolved :=
  match find_idx_from is_header_line table_lines 0 with
  | none =>
    some
      { data_lines := table_lines.filter keeps_data_line
        sector_idx := some 1, scenario_idx := some 2, effect_idx := some 3
        drivers_idx := none, source_idx := some 4 }
  | some header_idx =>
    (table_lines.get? header_idx).bind fun header_line =>
    let normalized_headers := (row_cells header_line).map normalize_header_text
    some
      { data_lines :=
          ((enum_from 0 table_lines).filter
            (fun p => decide (header_idx < p.1) && keeps_data_line p.2)).map Prod.snd
        sector_idx := find_column_index normalized_headers sector_keywords
        scenario_idx := find_column_index normalized_headers scenario_keywords
        effect_idx := find_column_index normalized_headers effect_keywords
        drivers_idx := find_column_index normalized_headers drivers_keywords
        source_idx := find_column_index normalized_headers source_keywords }

def process_section_e (s : List Char) (bodyStart bodyEnd : Nat)
    (headerGroup : List Char) : Option (List Payload) :=
  let header := py_strip headerGroup
  let region_name := clean_region_name header
  let table_lines := table_lines_of s bodyStart bodyEnd
  if table_lines.isEmpty then some []
  else
    (resolve_columns_e table_lines).bind fun r =>
    if r.sector_idx.isNone || r.scenario_idx.isNone || r.effect_idx.isNone then some []
    else
      (map_m_e
        (process_row_e region_name r.sector_idx r.scenario_idx r.effect_idx
          r.drivers_idx r.source_idx) r.data_lines).bind fun results =>
      some (results.filterMap id)

def sections_payloads_e (s : List Char) :
    List (Nat × Nat × List Char) → Option (List Payload)
  | [] => some []
  | m :: rest =>
    let bodyEnd := match rest with
      | m2 :: _ => m2.1
      | [] => s.length
    (process_section_e s m.2.1 bodyEnd m.2.2).bind fun ps =>
    (sections_payloads_e s rest).bind fun qs => some (ps ++ qs)

def parse_agent_output_e (s : String) : Option (List Payload) :=
  sections_payloads_e s.data (section_header_matches s.data)

/-- Total number of pipe-prefixed lines over all section bodies; each
payload consumes one distinct such line. -/
def table_line_count (s : List Char) : List (Nat × Nat × List Char) → Nat
  | [] => 0
  | m :: rest =>
    (table_lines_of s m.2.1
      (match rest with | m2 :: _ => m2.1 | [] => s.length)).length +
    table_line_count s rest

/-! Helper lemmas. -/

theorem find_idx_from_some {α : Type} (p : α → Bool) :
    ∀ (l : List α) (i0 j : Nat), find_idx_from p l i0 = some j →
      i0 ≤ j ∧ j - i0 < l.length ∧ ∃ x, l.get? (j - i0) = some x ∧ p x = true := by
  intro l
  induction l with
  | nil => intro i0 j h; simp [find_idx_from] at h
  | cons a t ih =>
    intro i0 j h
    simp only [find_idx_from] at h
    by_cases hp : p a = true
    · simp [hp] at h
      refine ⟨by omega, by simp [← h], a, ?_, hp⟩
      simp [← h]
    · simp [hp] at h
      obtain ⟨h1, h2, x, hx, hpx⟩ := ih (i0 + 1) j h
      refine ⟨by omega, by simp; omega, x, ?_, hpx⟩
      have : j - i0 = (j - (i0 + 1)) + 1 := by omega
      rw [this]
      simpa using hx

theorem safe_get_e_eq (cells : List (List Char)) (idx : Option Nat) :
    safe_get_e cells idx = some (safe_get cells idx) := by
  cases idx with
  | none => rfl
  | some i =>
    simp only [safe_get_e, safe_get]
    by_cases h : i < cells.length
    · simp only [h, if_true]
      rw [List.get?_eq_get h]
      rfl
    · simp [h]

theorem process_row_e_eq (r : List Char) (s1 s2 s3 s4 s5 : Option Nat)
    (line : List Char) :
    process_row_e r s1 s2 s3 s4 s5 line = some (process_row r s1 s2 s3 s4 s5 line) := by
  simp only [process_row_e, process_row, safe_get_e_eq, Option.some_bind]
  split
  · rfl
  · split <;> rfl

theorem map_m_e_eq_some {α β : Type} (f : α → Option β) (g : α → β)
    (hf : ∀ a, f a = some (g a)) :
    ∀ l : List α, map_m_e f l = some (l.map g) := by
  intro l
  induction l with
  | nil => rfl
  | cons a rest ih => simp [map_m_e, hf, ih]

theorem resolve_columns_e_eq (tl : List (List Char)) :
    resolve_columns_e tl = some (resolve_columns tl) := by
  simp only [resolve_columns_e, resolve_columns]
  cases h : find_idx_from is_header_line tl 0 with
  | none => rfl
  | some i =>
    obtain ⟨-, hlen, x, hx, -⟩ := find_idx_from_some is_header_line tl 0 i h
    simp only [Nat.sub_zero] at hlen hx
    rw [List.get?_eq_getElem?] at hx
    simp [hx]

theorem process_section_e_eq (s : List Char) (a b : Nat) (g : List Char) :
    process_section_e s a b g = some (process_section s a b g) := by
  simp only [process_section_e, process_section, resolve_columns_e_eq, Option.some_bind]
  split
  · rfl
  · split
    · rfl
    · rw [map_m_e_eq_some _
        (process_row (clean_region_name (py_strip g))
          (resolve_columns (table_lines_of s a b)).sector_idx
          (resolve_columns (table_lines_of s a b)).scenario_idx
          (resolve_columns (table_lines_of s a b)).effect_idx
          (resolve_columns (table_lines_of s a b)).drivers_idx
          (resolve_columns (table_lines_of s a b)).source_idx)
        (fun line => process_row_e_eq _ _ _ _ _ _ line)]
      simp [List.filterMap_map]

theorem sections_payloads_e_eq (s : List Char) :
    ∀ ms : List (Nat × Nat × List Char),
      sections_payloads_e s ms = some (sections_payloads s ms) := by
  intro ms
  induction ms with
  | nil => rfl
  | cons m rest ih =>
    simp [sections_payloads_e, sections_payloads, process_section_e_eq, ih]

theorem enum_from_length {α : Type} : ∀ (l : List α) (i : Nat),
    (enum_from i l).length = l.length := by
  intro l
  induction l with
  | nil => intro i; rfl
  | cons a rest ih => intro i; simp [enum_from, ih]

theorem data_lines_length_le (tl : List (List Char)) :
    (resolve_columns tl).data_lines.length ≤ tl.length := by
  unfold resolve_columns
  cases h : find_idx_from is_header_line tl 0 with
  | none => simpa using List.length_filter_le keeps_data_line tl
  | some i =>
    simp only [List.length_map]
    calc (List.filter (fun q => decide (i < q.1) && keeps_data_line q.2)
            (enum_from 0 tl)).length
        ≤ (enum_from 0 tl).length := List.length_filter_le _ _
      _ = tl.length := enum_from_length tl 0

theorem process_section_length_le (s : List Char) (a b : Nat) (g : List Char) :
    (process_section s a b g).length ≤ (table_lines_of s a b).length := by
  simp only [process_section]
  split
  · simp
  · split
    · simp
    · calc (List.filterMap _ (resolve_columns (table_lines_of s a b)).data_lines).length
          ≤ (resolve_columns (table_lines_of s a b)).data_lines.length :=
            List.length_filterMap_le _ _
        _ ≤ (table_lines_of s a b).length := data_lines_length_le _

theorem sections_payloads_length_le (s : List Char) :
    ∀ ms : List (Nat × Nat × List Char),
      (sections_payloads s ms).length ≤ table_line_count s ms := by
  intro ms
  induction ms with
  | nil => simp [sections_payloads, table_line_count]
  | cons m rest ih =>
    simp only [sections_payloads, table_line_count, List.length_append]
    exact Nat.add_le_add (process_section_length_le _ _ _ _) ih

theorem mem_sections_payloads {s : List Char} {p : Payload} :
    ∀ {ms : List (Nat × Nat × List Char)}, p ∈ sections_payloads s ms →
      ∃ m ∈ ms, ∃ b, p ∈ process_section s m.2.1 b m.2.2 := by
  intro ms
  induction ms with
  | nil => intro h; simp [sections_payloads] at h
  | cons m rest ih =>
    intro h
    simp only [sections_payloads] at h
    rcases List.mem_append.mp h with h1 | h2
    · exact ⟨m, List.mem_cons_self m rest, _, h1⟩
    · obtain ⟨m2, hm2, b, hb⟩ := ih h2
      exact ⟨m2, List.mem_cons_of_mem m hm2, b, hb⟩

theorem mem_process_section {s : List Char} {a b : Nat} {g : List Char} {p : Payload}
    (h : p ∈ process_section s a b g) :
    ∃ line ∈ (resolve_columns (table_lines_of s a b)).data_lines,
      process_row (clean_region_name (py_strip g))
        (resolve_columns (table_lines_of s a b)).sector_idx
        (resolve_columns (table_lines_of s a b)).scenario_idx
        (resolve_columns (table_lines_of s a b)).effect_idx
        (resolve_columns (table_lines_of s a b)).drivers_idx
        (resolve_columns (table_lines_of s a b)).source_idx line = some p := by
  simp only [process_section] at h
  split at h
  · simp at h
  · split at h
    · simp at h
    · exact List.mem_filterMap.mp h

theorem data_lines_keeps {tl : List (List Char)} {line : List Char}
    (h : line ∈ (resolve_columns tl).data_lines) : keeps_data_line line = true := by
  unfold resolve_columns at h
  cases hf : find_idx_from is_header_line tl 0 with
  | none =>
    rw [hf] at h
    exact (List.mem_filter.mp h).2
  | some i =>
    rw [hf] at h
    obtain ⟨pr, hpr, hsnd⟩ := List.mem_map.mp h
    have hq := (List.mem_filter.mp hpr).2
    rw [Bool.and_eq_true] at hq
    rw [← hsnd]
    exact hq.2

theorem process_row_eq_some {r : List Char} {s1 s2 s3 s4 s5 : Option Nat}
    {line : List Char} {p : Payload}
    (h : process_row r s1 s2 s3 s4 s5 line = some p) :
    index_cell_match (safe_get (row_cells line) (some 0)) = true ∧
    safe_get (row_cells line) s2 ≠ [] ∧
    p.case_data.region_name = String.mk r ∧
    p.economic_effects = build_effects (safe_get (row_cells line) s3) ∧
    p.case_data.key_effect_note = String.mk (strip_markdown (safe_get (row_cells line) s3)) ∧
    (p.technology_drivers = [] ∨
      p.technology_drivers =
        (parse_technology_drivers (safe_get (row_cells line) s4)).map String.mk) := by
  simp only [process_row] at h
  split at h
  · exact absurd h (by simp)
  · rename_i h1
    split at h
    · exact absurd h (by simp)
    · rename_i h2
      obtain rfl := Option.some.inj h
      refine ⟨by simpa using h1, by simpa using h2, rfl, rfl, rfl, ?_⟩
      by_cases hd : (s4.isSome && !(safe_get (row_cells line) s4).isEmpty) = true
      · right; simp [hd]
      · left; simp [hd]

theorem parse_technology_drivers_ne_nil {cell d : List Char}
    (h : d ∈ parse_technology_drivers cell) : d ≠ [] := by
  unfold parse_technology_drivers at h
  split at h
  · simp at h
  · have hq := (List.mem_filter.mp h).2
    simpa using hq

/-! Concrete inputs and their parses, used by the claim theorems. -/

def c2doc : String := "## R\n| 1 | S | - | | src |"

def c2payload : Payload :=
  { case_data :=
      { region_name := "R", sector_name := "S", title := "", summary := "",
        detailed_notes := some "src", key_effect_note := "" }
    economic_effects := [], technology_drivers := [] }

def c3header_line : String := "|# | Сценарий | Сектор | Эффект |"

def c3doc : String := "## R\n|# | Сценарий | Сектор | Эффект |\n| 1 | **T** - D | S | E |"

def c3payload : Payload :=
  { case_data :=
      { region_name := "R", sector_name := "T - D", title := "S", summary := "E",
        detailed_notes := none, key_effect_note := "E" }
    economic_effects :=
      [{ effect_type := "text_note", value_numeric := none, currency := none,
         period_note := "E" }]
    technology_drivers := [] }

def c4doc : String := "## Регион\n| 1 | Финансы | **X** – Y | Effect Z | src |"

def c4payload : Payload :=
  { case_data :=
      { region_name := "Регион", sector_name := "Финансы", title := "X",
        summary := "Y", detailed_notes := some "src", key_effect_note := "Effect Z" }
    economic_effects :=
      [{ effect_type := "text_note", value_numeric := none, currency := none,
         period_note := "Effect Z" }]
    technology_drivers := [] }

def c5doc : String := "## R\n| 1 | S1 | **T** - D | E | src |\n| Примечание | x | y | z | w |"

def c5payload : Payload :=
  { case_data :=
      { region_name := "R", sector_name := "S1", title := "T", summary := "D",
        detailed_notes := some "src", key_effect_note := "E" }
    economic_effects :=
      [{ effect_type := "text_note", value_numeric := none, currency := none,
         period_note := "E" }]
    technology_drivers := [] }

def c6doc : String :=
  "## R\n| # | Сектор | Сценарий | Эффект | Драйверы |\n| 1 | S | **T** - D | E | LLM, LLM |"

def c6payload : Payload :=
  { case_data :=
      { region_name := "R", sector_name := "S", title := "T", summary := "D",
        detailed_notes := none, key_effect_note := "E" }
    economic_effects :=
      [{ effect_type := "text_note", value_numeric := none, currency := none,
         period_note := "E" }]
    technology_drivers := ["LLM", "LLM"] }

def c7row : String := "| 1 | S | **T** - D | ** | src |"

def c7doc : String := "## R\n| 1 | S | **T** - D | ** | src |"

def c7payload : Payload :=
  { case_data :=
      { region_name := "R", sector_name := "S", title := "T", summary := "D",
        detailed_notes := some "src", key_effect_note := "" }
    economic_effects := [], technology_drivers := [] }

def c9doc : String :=
  "## Регион А\n| 1 | S1 | **T1** - D1 | E1 | s1 |\n## Регион Б\n| 1 | S2 | **T2** - D2 | E2 | s2 |"

def c9p1 : Payload :=
  { case_data :=
      { region_name := "Регион А", sector_name := "S1", title := "T1", summary := "D1",
        detailed_notes := some "s1", key_effect_note := "E1" }
    economic_effects :=
      [{ effect_type := "text_note", value_numeric := none, currency := none,
         period_note := "E1" }]
    technology_drivers := [] }

def c9p2 : Payload :=
  { case_data :=
      { region_name := "Регион Б", sector_name := "S2", title := "T2", summary := "D2",
        detailed_notes := some "s2", key_effect_note := "E2" }
    economic_effects :=
      [{ effect_type := "text_note", value_numeric := none, currency := none,
         period_note := "E2" }]
    technology_drivers := [] }

def c10doc : String := "## R\n| 1 | S | **T** - D | a---b | src |"

def c10doc2 : String := "## R\n| 1 | S | **T** - D | ab | src |"

def c10payload2 : Payload :=
  { case_data :=
      { region_name := "R", sector_name := "S", title := "T", summary := "D",
        detailed_notes := some "src", key_effect_note := "ab" }
    economic_effects :=
      [{ effect_type := "text_note", value_numeric := none, currency := none,
         period_note := "ab" }]
    technology_drivers := [] }

/-! Further helper lemmas. -/

theorem find_idx_from_succ_shift {α : Type} (p : α → Bool) :
    ∀ (l : List α) (i0 : Nat),
      find_idx_from p l (i0 + 1) = (find_idx_from p l i0).map (· + 1) := by
  intro l
  induction l with
  | nil => intro i0; rfl
  | cons a t ih =>
    intro i0
    simp only [find_idx_from]
    by_cases hp : p a = true
    · simp [hp]
    · simp [hp, ih]

theorem find_idx_from_zero_iff {α : Type} (p : α → Bool) :
    ∀ (l : List α) (i : Nat),
      find_idx_from p l 0 = some i ↔
        (∃ x, l.get? i = some x ∧ p x = true) ∧
        (∀ j, j < i → ∀ y, l.get? j = some y → p y = false) := by
  intro l
  induction l with
  | nil => intro i; simp [find_idx_from]
  | cons a t ih =>
    intro i
    simp only [find_idx_from]
    by_cases hp : p a = true
    · simp only [hp, if_true]
      constructor
      · intro h
        obtain rfl := Option.some.inj h
        exact ⟨⟨a, rfl, hp⟩, by intro j hj; omega⟩
      · rintro ⟨⟨x, hx, hpx⟩, hmin⟩
        cases i with
        | zero => rfl
        | succ n =>
          have := hmin 0 (Nat.succ_pos n) a rfl
          rw [hp] at this
          exact absurd this (by simp)
    · rw [if_neg hp, find_idx_from_succ_shift]
      constructor
      · intro h
        obtain ⟨i', hi', rfl⟩ := Option.map_eq_some'.mp h
        obtain ⟨⟨x, hx, hpx⟩, hmin⟩ := (ih i').mp hi'
        refine ⟨⟨x, by simpa using hx, hpx⟩, ?_⟩
        intro j hj y hy
        cases j with
        | zero =>
          obtain rfl := Option.some.inj hy
          exact Bool.not_eq_true _ ▸ (by simpa using hp)
        | succ k =>
          exact hmin k (by omega) y (by simpa using hy)
      · rintro ⟨⟨x, hx, hpx⟩, hmin⟩
        cases i with
        | zero =>
          obtain rfl := Option.some.inj hx
          exact absurd hpx hp
        | succ n =>
          have hmin' : ∀ k, k < n → ∀ y, t.get? k = some y → p y = false := by
            intro k hk y hy
            exact hmin (k + 1) (by omega) y (by simpa using hy)
          have h0 := (ih n).mpr ⟨⟨x, by simpa using hx, hpx⟩, hmin'⟩
          rw [h0]
          rfl

theorem build_effects_cases (t : List Char) :
    (build_effects t).length ≤ 1 ∧
    (String.mk (strip_markdown t) = "" → build_effects t = []) ∧
    (String.mk (strip_markdown t) ≠ "" →
      build_effects t =
        [{ effect_type := "text_note", value_numeric := none, currency := none,
           period_note := String.mk (strip_markdown t) }]) := by
  unfold build_effects
  cases hE : (strip_markdown t).isEmpty with
  | false =>
    simp only [hE, Bool.false_eq_true, if_false]
    refine ⟨by simp, ?_, fun _ => trivial⟩
    intro h0
    have hnil : strip_markdown t = [] := by simpa using congrArg String.data h0
    rw [hnil] at hE
    simp at hE
  | true =>
    simp only [hE, if_true]
    refine ⟨by simp, fun _ => trivial, ?_⟩
    intro hne
    have hnil : strip_markdown t = [] := List.isEmpty_iff.mp hE
    rw [hnil] at hne
    exact absurd rfl hne

/-- Per-section body spans: `(body_start, body_end, heading_group)`, the
body running from one match's end to the next match's start (or to the end
of the document). -/
def section_spans_aux (total : Nat) :
    List (Nat × Nat × List Char) → List (Nat × Nat × List Char)
  | [] => []
  | m :: rest =>
    (m.2.1, (match rest with | m2 :: _ => m2.1 | [] => total), m.2.2) ::
      section_spans_aux total rest

def section_spans (s : List Char) : List (Nat × Nat × List Char) :=
  section_spans_aux s.length (section_header_matches s)

theorem sections_payloads_eq_bind (s : List Char) :
    ∀ ms, sections_payloads s ms =
      (section_spans_aux s.length ms).flatMap
        (fun sp => process_section s sp.1 sp.2.1 sp.2.2) := by
  intro ms
  induction ms with
  | nil => rfl
  | cons m rest ih =>
    simp only [sections_payloads, section_spans_aux, List.flatMap_cons]
    rw [ih]

theorem process_section_region {s : List Char} {a b : Nat} {g : List Char} {p : Payload}
    (h : p ∈ process_section s a b g) :
    p.case_data.region_name = String.mk (clean_region_name (py_strip g)) := by
  obtain ⟨line, -, hrow⟩ := mem_process_section h
  exact (process_row_eq_some hrow).2.2.1

/-! Claim theorems. -/

/-- C1: for every input string the parser agrees with its exception model
(`parse_agent_output_e` never returns `none`, i.e. no Python list
subscript can raise), returning a — possibly empty — payload list whose
length is bounded by the number of table lines, so malformed rows and
sections only reduce the number of extracted payloads. -/
theorem c1_never_raises (s : String) :
    parse_agent_output_e s = some (parse_agent_output s) ∧
    (parse_agent_output s).length ≤
      table_line_count s.data (section_header_matches s.data) := by
  constructor
  · exact sections_payloads_e_eq s.data (section_header_matches s.data)
  · exact sections_payloads_length_le s.data (section_header_matches s.data)

/-- C2 counterexample: on the document `"## R\n| 1 | S | - | | src |"`
the parser emits exactly one payload whose title AND summary are both
empty — the scenario cell `"-"` splits into two empty parts and the empty
effect cell leaves the summary fallback empty. -/
theorem c2_counterexample :
    parse_agent_output c2doc = [c2payload] ∧
    c2payload.case_data.title = "" ∧ c2payload.case_data.summary = "" := by
  refine ⟨by decide, rfl, rfl⟩

/-- C2 amended: a row is dropped (contributes no payload) exactly on an
empty scenario cell: every emitted payload originates from a row whose
scenario cell is non-empty, and a row whose scenario cell is empty yields
no payload; title and summary may nevertheless both be empty. -/
theorem c2_amended :
    (∀ (r : List Char) (s1 s2 s3 s4 s5 : Option Nat) (line : List Char),
      safe_get (row_cells line) s2 = [] →
      process_row r s1 s2 s3 s4 s5 line = none) ∧
    (∀ (s : String) (p : Payload), p ∈ parse_agent_output s →
      ∃ r s1 s2 s3 s4 s5 line,
        process_row r s1 s2 s3 s4 s5 line = some p ∧
        safe_get (row_cells line) s2 ≠ []) := by
  constructor
  · intro r s1 s2 s3 s4 s5 line hempty
    simp only [process_row]
    split
    · rfl
    · simp [hempty]
  · intro s p hp
    obtain ⟨m, hm, b, hb⟩ := mem_sections_payloads hp
    obtain ⟨line, hline, hrow⟩ := mem_process_section hb
    exact ⟨_, _, _, _, _, _, line, hrow, (process_row_eq_some hrow).2.1⟩

theorem c2_amended_witness :
    process_row (chars "R") (some 1) (some 2) (some 3) none (some 4)
      (chars "| 1 | S | | E | src |") = none ∧
    (∃ r s1 s2 s3 s4 s5 line,
      process_row r s1 s2 s3 s4 s5 line = some c2payload ∧
      safe_get (row_cells line) s2 ≠ []) :=
  ⟨c2_amended.1 (chars "R") (some 1) (some 2) (some 3) none (some 4)
      (chars "| 1 | S | | E | src |") (by decide),
   c2_amended.2 c2doc c2payload (by decide)⟩

/-- C3 counterexample: the row `"|# | Сценарий | Сектор | Эффект |"` has
the literal `"#"` as its first cell, yet it is not chosen as header row
(the code looks for the substring `"| # "`); the whole document therefore
resolves columns positionally and the emitted payload takes its sector
from cell 1 — `"T - D"` — instead of the `Сектор` column. -/
theorem c3_counterexample :
    safe_get (row_cells (chars c3header_line)) (some 0) = chars "#" ∧
    find_idx_from is_header_line
      [chars c3header_line, chars "| 1 | **T** - D | S | E |"] 0 = none ∧
    parse_agent_output c3doc = [c3payload] ∧
    c3payload.case_data.sector_name = "T - D" := by
  refine ⟨by decide, by decide, by decide, rfl⟩

/-- C3 amended: the header row chosen by the parser is exactly the first
table line that contains the substring `"| # "` (independently of its
first cell); earlier lines contain no such substring. -/
theorem c3_amended (lines : List (List Char)) (i : Nat) :
    find_idx_from is_header_line lines 0 = some i ↔
      (∃ ln, lines.get? i = some ln ∧ is_header_line ln = true) ∧
      (∀ j, j < i → ∀ ln, lines.get? j = some ln → is_header_line ln = false) :=
  find_idx_from_zero_iff is_header_line lines i

/-- C4: when no table line contains the header marker, the section is
processed with the fixed positional indices sector=1, scenario=2,
effect=3, source=4 and no drivers column; on the concrete headerless
5-cell row the payload gets sector `"Финансы"`, effect note `"Effect Z"`
and an empty driver list. -/
theorem c4_positional_fallback :
    (∀ (s : List Char) (a b : Nat) (g : List Char),
      find_idx_from is_header_line (table_lines_of s a b) 0 = none →
      process_section s a b g =
        ((table_lines_of s a b).filter keeps_data_line).filterMap
          (process_row (clean_region_name (py_strip g))
            (some 1) (some 2) (some 3) none (some 4))) ∧
    parse_agent_output c4doc = [c4payload] ∧
    c4payload.case_data.sector_name = "Финансы" ∧
    c4payload.case_data.key_effect_note = "Effect Z" ∧
    c4payload.technology_drivers = [] := by
  refine ⟨?_, by decide, rfl, rfl, rfl⟩
  intro s a b g hnone
  simp only [process_section, resolve_columns, hnone]
  split
  · rename_i hempty
    rw [List.isEmpty_iff.mp hempty]
    simp
  · rfl

theorem c4_witness :
    process_section (chars c4doc) 9 (chars c4doc).length (chars "Регион") =
      ((table_lines_of (chars c4doc) 9 (chars c4doc).length).filter
        keeps_data_line).filterMap
          (process_row (clean_region_name (py_strip (chars "Регион")))
            (some 1) (some 2) (some 3) none (some 4)) :=
  c4_positional_fallback.1 (chars c4doc) 9 (chars c4doc).length (chars "Регион")
    (by decide)

/-- C5: a table row produces a payload only if its first cell matches the
index pattern `\d+(\.\d+)?`: a row failing the pattern is skipped, every
emitted payload originates from a row passing it, and concretely the
`"| Примечание | ... |"` row of `c5doc` contributes nothing. -/
theorem c5_index_guard :
    (∀ (r : List Char) (s1 s2 s3 s4 s5 : Option Nat) (line : List Char),
      index_cell_match (safe_get (row_cells line) (some 0)) = false →
      process_row r s1 s2 s3 s4 s5 line = none) ∧
    (∀ (s : String) (p : Payload), p ∈ parse_agent_output s →
      ∃ r s1 s2 s3 s4 s5 line,
        process_row r s1 s2 s3 s4 s5 line = some p ∧
        index_cell_match (safe_get (row_cells line) (some 0)) = true) ∧
    parse_agent_output c5doc = [c5payload] := by
  refine ⟨?_, ?_, by decide⟩
  · intro r s1 s2 s3 s4 s5 line hfail
    simp only [process_row]
    split
    · rfl
    · rename_i hcond
      have := not_not.mp hcond
      rw [hfail] at this
      exact absurd this (by simp)
  · intro s p hp
    obtain ⟨m, hm, b, hb⟩ := mem_sections_payloads hp
    obtain ⟨line, hline, hrow⟩ := mem_process_section hb
    exact ⟨_, _, _, _, _, _, line, hrow, (process_row_eq_some hrow).1⟩

theorem c5_witness :
    process_row (chars "R") (some 1) (some 2) (some 3) none (some 4)
      (chars "| Примечание | x | y | z | w |") = none :=
  c5_index_guard.1 (chars "R") (some 1) (some 2) (some 3) none (some 4)
    (chars "| Примечание | x | y | z | w |") (by decide)

/-- C6 counterexample: a drivers cell `"LLM, LLM"` yields the duplicated
list `["LLM", "LLM"]` — `_parse_technology_drivers` removes empty tokens
but performs no deduplication, so the emitted drivers are not distinct. -/
theorem c6_counterexample :
    parse_agent_output c6doc = [c6payload] ∧
    c6payload.technology_drivers = ["LLM", "LLM"] ∧
    ¬ c6payload.technology_drivers.Nodup := by
  refine ⟨by decide, rfl, by decide⟩

/-- C6 amended: `technology_drivers` is the ordered sequence of driver
tokens split from the drivers cell with empty tokens discarded; exact
duplicates are preserved, and no emitted payload ever contains an empty
driver string. -/
theorem c6_amended (s : String) (p : Payload) (hp : p ∈ parse_agent_output s) :
    ∀ d ∈ p.technology_drivers, d ≠ "" := by
  obtain ⟨m, hm, b, hb⟩ := mem_sections_payloads hp
  obtain ⟨line, hline, hrow⟩ := mem_process_section hb
  obtain ⟨-, -, -, -, -, hdrv⟩ := process_row_eq_some hrow
  intro d hd
  rcases hdrv with hnil | heq
  · rw [hnil] at hd
    simp at hd
  · rw [heq] at hd
    obtain ⟨c, hc, rfl⟩ := List.mem_map.mp hd
    intro hcontra
    exact parse_technology_drivers_ne_nil hc
      (by simpa using congrArg String.data hcontra)

theorem c6_amended_witness : ("LLM" : String) ≠ "" :=
  c6_amended c6doc c6payload (by decide) "LLM" (by decide)

/-- C7 counterexample: on `c7doc` the effect cell is the non-empty string
`"**"`, yet the emitted payload has zero economic effects — the cell
strips to the empty string, and `_build_effects` tests the stripped text,
not the raw cell. -/
theorem c7_counterexample :
    parse_agent_output c7doc = [c7payload] ∧
    safe_get (row_cells (chars c7row)) (some 3) = chars "**" ∧
    safe_get (row_cells (chars c7row)) (some 3) ≠ [] ∧
    c7payload.economic_effects = [] := by
  refine ⟨by decide, by decide, by decide, rfl⟩

/-- C7 amended: every payload has 0 or 1 economic effects: exactly one
entry `{effect_type := "text_note", value_numeric := none}` carrying the
markdown-stripped effect text when that stripped text (the payload's
`key_effect_note`) is non-empty, and none when it is empty. -/
theorem c7_amended (s : String) (p : Payload) (hp : p ∈ parse_agent_output s) :
    p.economic_effects.length ≤ 1 ∧
    (p.case_data.key_effect_note = "" → p.economic_effects = []) ∧
    (p.case_data.key_effect_note ≠ "" →
      p.economic_effects =
        [{ effect_type := "text_note", value_numeric := none, currency := none,
           period_note := p.case_data.key_effect_note }]) := by
  obtain ⟨m, hm, b, hb⟩ := mem_sections_payloads hp
  obtain ⟨line, hline, hrow⟩ := mem_process_section hb
  obtain ⟨-, -, -, heff, hkey, -⟩ := process_row_eq_some hrow
  rw [heff, hkey]
  exact build_effects_cases _

theorem c7_amended_witness :
    c7payload.economic_effects.length ≤ 1 ∧
    (c7payload.case_data.key_effect_note = "" → c7payload.economic_effects = []) ∧
    (c7payload.case_data.key_effect_note ≠ "" →
      c7payload.economic_effects =
        [{ effect_type := "text_note", value_numeric := none, currency := none,
           period_note := c7payload.case_data.key_effect_note }]) :=
  c7_amended c7doc c7payload (by decide)

/-- C9: the payload sequence is the concatenation, in document order, of
the per-section payload lists (each section's body bounded by the next
match's start), every payload's `region_name` is the cleaned heading text
of the section it came from, and the two-section document `c9doc` yields
its two payloads in section order with matching region names. -/
theorem c9_section_order :
    (∀ s : List Char, parse_core s =
      (section_spans s).flatMap (fun sp => process_section s sp.1 sp.2.1 sp.2.2)) ∧
    (∀ (s : List Char) (sp : Nat × Nat × List Char) (p : Payload),
      sp ∈ section_spans s → p ∈ process_section s sp.1 sp.2.1 sp.2.2 →
      p.case_data.region_name = String.mk (clean_region_name (py_strip sp.2.2))) ∧
    parse_agent_output c9doc = [c9p1, c9p2] ∧
    c9p1.case_data.region_name = "Регион А" ∧
    c9p2.case_data.region_name = "Регион Б" := by
  refine ⟨?_, ?_, by decide, rfl, rfl⟩
  · intro s
    exact sections_payloads_eq_bind s (section_header_matches s)
  · intro s sp p hsp hp
    exact process_section_region hp

theorem c9_witness :
    c4payload.case_data.region_name =
      String.mk (clean_region_name (py_strip (chars "Регион"))) :=
  c9_section_order.2.1 (chars c4doc) (9, (chars c4doc).length, chars "Регион")
    c4payload (by decide) (by decide)

/-- C10: every emitted payload originates from a data line that does not
contain the substring `"---"` anywhere; concretely the otherwise-valid row
of `c10doc`, whose effect cell content contains `"a---b"`, is excluded
(while the same row with effect `"ab"` parses). -/
theorem c10_dash_filter :
    (∀ (s : String) (p : Payload), p ∈ parse_agent_output s →
      ∃ r s1 s2 s3 s4 s5 line,
        process_row r s1 s2 s3 s4 s5 line = some p ∧
        contains_sub dash_marker line = false) ∧
    parse_agent_output c10doc = [] ∧
    parse_agent_output c10doc2 = [c10payload2] := by
  refine ⟨?_, by decide, by decide⟩
  intro s p hp
  obtain ⟨m, hm, b, hb⟩ := mem_sections_payloads hp
  obtain ⟨line, hline, hrow⟩ := mem_process_section hb
  have hkeep := data_lines_keeps hline
  unfold keeps_data_line at hkeep
  rw [Bool.and_eq_true] at hkeep
  refine ⟨_, _, _, _, _, _, line, hrow, ?_⟩
  simpa using hkeep.1

theorem c10_witness :
    ∃ r s1 s2 s3 s4 s5 line,
      process_row r s1 s2 s3 s4 s5 line = some c4payload ∧
      contains_sub dash_marker line = false :=
  c10_dash_filter.1 c4doc c4payload (by decide)

/-! Lemmas about the section-heading matcher, used for C8. -/

theorem tw_dw_length {α : Type} (p : α → Bool) (l : List α) :
    (l.takeWhile p).length + (l.dropWhile p).length = l.length := by
  conv_rhs => rw [← List.takeWhile_append_dropWhile p l]
  rw [List.length_append]

theorem takeWhile_append_all {α : Type} (p : α → Bool) :
    ∀ (a l : List α), (∀ x ∈ a, p x = true) →
      (a ++ l).takeWhile p = a ++ l.takeWhile p := by
  intro a
  induction a with
  | nil => intro l _; simp
  | cons y ys ih =>
    intro l h
    have hy : p y = true := h y (by simp)
    simp only [List.cons_append, List.takeWhile_cons_of_pos hy]
    rw [ih l (fun x hx => h x (by simp [hx]))]

theorem dropWhile_append_all {α : Type} (p : α → Bool) :
    ∀ (a l : List α), (∀ x ∈ a, p x = true) →
      (a ++ l).dropWhile p = l.dropWhile p := by
  intro a
  induction a with
  | nil => intro l _; simp
  | cons y ys ih =>
    intro l h
    have hy : p y = true := h y (by simp)
    simp only [List.cons_append, List.dropWhile_cons_of_pos hy]
    exact ih l (fun x hx => h x (by simp [hx]))

theorem takeWhile_all_self {α : Type} (p : α → Bool) (l : List α)
    (h : ∀ x ∈ l, p x = true) : l.takeWhile p = l := by
  have h2 := takeWhile_append_all p l [] h
  simpa using h2

theorem dropWhile_all_neg {α : Type} (q : α → Bool) (l : List α)
    (h : ∀ x ∈ l, q x = false) : l.dropWhile q = l := by
  cases l with
  | nil => rfl
  | cons y t =>
    have : ¬ q y = true := by simp [h y (by simp)]
    exact List.dropWhile_cons_of_neg this

theorem match_heading_bounds {s : List Char} {p e : Nat} {g : List Char}
    (h : match_heading_from s p = some (e, g)) : p < e ∧ e ≤ s.length := by
  simp only [match_heading_from] at h
  have L1 := tw_dw_length py_is_ws (s.drop p)
  have L2 := tw_dw_length (fun c => c = '#') ((s.drop p).dropWhile py_is_ws)
  have L3 := tw_dw_length py_is_ws
    (((s.drop p).dropWhile py_is_ws).dropWhile (fun c => c = '#'))
  have L4 : (s.drop p).length = s.length - p := List.length_drop p s
  split at h
  · exact absurd h (by simp)
  · rename_i hb
    split at h
    · exact absurd h (by simp)
    · rename_i hc
      split at h
      · rename_i hT3
        split at h
        · exact absurd h (by simp)
        · rename_i k kt hkept
          cases h
          have L6 : (k :: kt).length ≤ ((((((s.drop p).dropWhile py_is_ws).dropWhile
              (fun c => c = '#')).takeWhile py_is_ws).drop 1).reverse).length := by
            rw [← hkept]
            have L7 := tw_dw_length (fun x => x = '\n')
              ((((((s.drop p).dropWhile py_is_ws).dropWhile
                (fun c => c = '#')).takeWhile py_is_ws).drop 1).reverse)
            omega
          rw [List.length_reverse, List.length_drop] at L6
          have L8 : ((((s.drop p).dropWhile py_is_ws).dropWhile
              (fun c => c = '#')).dropWhile py_is_ws).length = 0 := by
            rw [hT3]
            rfl
          constructor <;> omega
      · rename_i x xs hT3
        cases h
        have L5 := tw_dw_length (fun x => ¬ x = '\n')
          ((((s.drop p).dropWhile py_is_ws).dropWhile
            (fun c => c = '#')).dropWhile py_is_ws)
        constructor <;> omega

theorem section_matches_aux_sound (s : List Char) :
    ∀ fuel p : Nat,
      (∀ m ∈ section_matches_aux s fuel p,
        p ≤ m.1 ∧ line_start_b s m.1 = true ∧
        match_heading_from s m.1 = some (m.2.1, m.2.2)) ∧
      List.Chain' (fun m1 m2 => m1.2.1 ≤ m2.1) (section_matches_aux s fuel p) := by
  intro fuel
  induction fuel with
  | zero =>
    intro p
    exact ⟨fun m hm => by simp [section_matches_aux] at hm,
           by simp [section_matches_aux]⟩
  | succ fuel ih =>
    intro p
    simp only [section_matches_aux]
    split
    · exact ⟨fun m hm => by simp at hm, by simp⟩
    · split
      · rename_i hls
        split
        · rename_i e g heq
          obtain ⟨ihm, ihc⟩ := ih e
          have hpe := (match_heading_bounds heq).1
          constructor
          · intro m hm
            rcases List.mem_cons.mp hm with rfl | hm2
            · exact ⟨Nat.le_refl p, hls, heq⟩
            · obtain ⟨h1, h2, h3⟩ := ihm m hm2
              exact ⟨by omega, h2, h3⟩
          · refine List.chain'_cons'.mpr ⟨?_, ihc⟩
            intro y hy
            exact (ihm y (List.mem_of_mem_head? hy)).1
        · obtain ⟨ihm, ihc⟩ := ih (p + 1)
          constructor
          · intro m hm
            obtain ⟨h1, h2, h3⟩ := ihm m hm
            exact ⟨by omega, h2, h3⟩
          · exact ihc
      · obtain ⟨ihm, ihc⟩ := ih (p + 1)
        constructor
        · intro m hm
          obtain ⟨h1, h2, h3⟩ := ihm m hm
          exact ⟨by omega, h2, h3⟩
        · exact ihc

theorem section_matches_aux_no_nl {s : List Char} (hnl : '\n' ∉ s) :
    ∀ fuel p : Nat, 1 ≤ p → section_matches_aux s fuel p = [] := by
  intro fuel
  induction fuel with
  | zero => intro p _; rfl
  | succ fuel ih =>
    intro p hp
    simp only [section_matches_aux]
    split
    · rfl
    · have hls : line_start_b s p = false := by
        unfold line_start_b
        rw [Bool.or_eq_false_iff]
        constructor
        · exact decide_eq_false_iff_not.mpr (by omega)
        · rw [decide_eq_false_iff_not]
          intro hg
          exact hnl (List.get?_mem hg)
      rw [hls]
      simp only [Bool.false_eq_true, if_false]
      exact ih (p + 1) (by omega)

theorem section_header_matches_single_line (ln : List Char) (hnl : '\n' ∉ ln) :
    section_header_matches ln =
      (match match_heading_from ln 0 with
       | some eg => [(0, eg.1, eg.2)]
       | none => []) := by
  unfold section_header_matches
  simp only [section_matches_aux]
  split
  · rename_i hle
    have hnil : ln = [] := List.length_eq_zero.mp (by omega)
    rw [hnil]
    rfl
  · have hls : line_start_b ln 0 = true := by simp [line_start_b]
    rw [if_pos hls]
    split
    · rename_i e g heq
      rw [section_matches_aux_no_nl hnl ln.length e (match_heading_bounds heq).1]
      rw [heq]
    · rename_i heq
      rw [section_matches_aux_no_nl hnl ln.length 1 (by omega)]
      rw [heq]

theorem match_heading_iff_decomp (ln : List Char) (hnl : '\n' ∉ ln) :
    (match_heading_from ln 0).isSome = true ↔
      ∃ a b c d, ln = a ++ b ++ c ++ d ∧
        (∀ x ∈ a, py_is_ws x = true) ∧ (∀ x ∈ b, x = '#') ∧ 2 ≤ b.length ∧
        (∀ x ∈ c, py_is_ws x = true) ∧ 1 ≤ c.length ∧ d ≠ [] := by
  constructor
  · intro h
    rw [Option.isSome_iff_exists] at h
    obtain ⟨eg, heq⟩ := h
    simp only [match_heading_from, List.drop_zero] at heq
    have e1 : ln.takeWhile py_is_ws ++ ln.dropWhile py_is_ws = ln :=
      List.takeWhile_append_dropWhile py_is_ws ln
    have e2 : (ln.dropWhile py_is_ws).takeWhile (fun c => c = '#') ++
        (ln.dropWhile py_is_ws).dropWhile (fun c => c = '#') = ln.dropWhile py_is_ws :=
      List.takeWhile_append_dropWhile (fun c => c = '#') (ln.dropWhile py_is_ws)
    have e3 : ((ln.dropWhile py_is_ws).dropWhile (fun c => c = '#')).takeWhile py_is_ws ++
        ((ln.dropWhile py_is_ws).dropWhile (fun c => c = '#')).dropWhile py_is_ws =
        (ln.dropWhile py_is_ws).dropWhile (fun c => c = '#') :=
      List.takeWhile_append_dropWhile py_is_ws
        ((ln.dropWhile py_is_ws).dropWhile (fun c => c = '#'))
    have hamem : ∀ x ∈ ln.takeWhile py_is_ws, py_is_ws x = true :=
      fun x hx => List.mem_takeWhile_imp hx
    have hbmem : ∀ x ∈ (ln.dropWhile py_is_ws).takeWhile (fun c => c = '#'), x = '#' :=
      fun x hx => by simpa using List.mem_takeWhile_imp hx
    have hcmem : ∀ x ∈ ((ln.dropWhile py_is_ws).dropWhile
        (fun c => c = '#')).takeWhile py_is_ws, py_is_ws x = true :=
      fun x hx => List.mem_takeWhile_imp hx
    split at heq
    · exact absurd heq (by simp)
    · rename_i hb
      split at heq
      · exact absurd heq (by simp)
      · rename_i hc
        split at heq
        · rename_i hT3
          split at heq
          · exact absurd heq (by simp)
          · rename_i k kt hkept
            have hCeq : ((ln.dropWhile py_is_ws).dropWhile
                (fun c => c = '#')).takeWhile py_is_ws =
                (ln.dropWhile py_is_ws).dropWhile (fun c => c = '#') := by
              rw [hT3] at e3
              simpa using e3
            have h6 : (k :: kt).length ≤
                (((((ln.dropWhile py_is_ws).dropWhile
                  (fun c => c = '#')).takeWhile py_is_ws).drop 1).reverse).length := by
              rw [← hkept]
              have h7 := tw_dw_length (fun x => x = '\n')
                (((((ln.dropWhile py_is_ws).dropWhile
                  (fun c => c = '#')).takeWhile py_is_ws).drop 1).reverse)
              omega
            rw [List.length_reverse, List.length_drop] at h6
            refine ⟨ln.takeWhile py_is_ws,
              (ln.dropWhile py_is_ws).takeWhile (fun c => c = '#'),
              (((ln.dropWhile py_is_ws).dropWhile
                (fun c => c = '#')).takeWhile py_is_ws).take (k :: kt).length,
              (((ln.dropWhile py_is_ws).dropWhile
                (fun c => c = '#')).takeWhile py_is_ws).drop (k :: kt).length,
              ?_, hamem, hbmem, by omega, ?_, ?_, ?_⟩
            · conv_lhs => rw [← e1, ← e2, ← hCeq]
              simp only [List.append_assoc, List.take_append_drop]
            · intro x hx
              exact hcmem x (List.take_subset _ _ hx)
            · rw [List.length_take, Nat.le_min]
              exact ⟨by simp, by omega⟩
            · rw [Ne, List.drop_eq_nil_iff]
              omega
        · rename_i x xs hT3
          refine ⟨ln.takeWhile py_is_ws,
            (ln.dropWhile py_is_ws).takeWhile (fun c => c = '#'),
            ((ln.dropWhile py_is_ws).dropWhile (fun c => c = '#')).takeWhile py_is_ws,
            ((ln.dropWhile py_is_ws).dropWhile (fun c => c = '#')).dropWhile py_is_ws,
            ?_, hamem, hbmem, by omega, hcmem, by omega, ?_⟩
          · conv_lhs => rw [← e1, ← e2, ← e3]
            simp [List.append_assoc]
          · rw [hT3]
            simp
  · rintro ⟨a, b, c, d, rfl, ha, hbp, hblen, hcp, hclen, hd⟩
    obtain ⟨bh, bt, rfl⟩ : ∃ bh bt, b = bh :: bt := by
      cases b with
      | nil => simp at hblen
      | cons x xs => exact ⟨x, xs, rfl⟩
    obtain ⟨ch, ct, rfl⟩ : ∃ ch ct, c = ch :: ct := by
      cases c with
      | nil => simp at hclen
      | cons x xs => exact ⟨x, xs, rfl⟩
    have hbh : bh = '#' := hbp bh (by simp)
    have hwsbh : py_is_ws bh = false := by rw [hbh]; decide
    have hchw : py_is_ws ch = true := hcp ch (by simp)
    have hchne : ¬ ch = '#' := by
      intro hcontra
      rw [hcontra] at hchw
      exact absurd hchw (by decide)
    simp only [match_heading_from, List.drop_zero, List.append_assoc, List.cons_append]
    have hT1 : (a ++ (bh :: (bt ++ (ch :: (ct ++ d))))).dropWhile py_is_ws
        = bh :: (bt ++ (ch :: (ct ++ d))) := by
      rw [dropWhile_append_all py_is_ws a _ ha]
      exact List.dropWhile_cons_of_neg (by simp [hwsbh])
    have hBeq : (bh :: (bt ++ (ch :: (ct ++ d)))).takeWhile (fun c => c = '#')
        = bh :: bt := by
      have h1 := takeWhile_append_all (fun c => c = '#') (bh :: bt) (ch :: (ct ++ d))
        (fun x hx => by simp [hbp x (by simpa using hx)])
      simp only [List.cons_append] at h1
      rw [h1, List.takeWhile_cons_of_neg (by simp [hchne])]
      simp
    have hT2 : (bh :: (bt ++ (ch :: (ct ++ d)))).dropWhile (fun c => c = '#')
        = ch :: (ct ++ d) := by
      have h1 := dropWhile_append_all (fun c => c = '#') (bh :: bt) (ch :: (ct ++ d))
        (fun x hx => by simp [hbp x (by simpa using hx)])
      simp only [List.cons_append] at h1
      rw [h1, List.dropWhile_cons_of_neg (by simp [hchne])]
    have hCeq : (ch :: (ct ++ d)).takeWhile py_is_ws
        = ch :: (ct ++ (d.takeWhile py_is_ws)) := by
      have h1 := takeWhile_append_all py_is_ws (ch :: ct) d
        (fun x hx => hcp x (by simpa using hx))
      simpa using h1
    have hT3 : (ch :: (ct ++ d)).dropWhile py_is_ws = d.dropWhile py_is_ws := by
      have h1 := dropWhile_append_all py_is_ws (ch :: ct) d
        (fun x hx => hcp x (by simpa using hx))
      simpa using h1
    rw [hT1, hBeq, hT2, hCeq, hT3]
    rw [if_neg (by omega)]
    cases hdd : d.dropWhile py_is_ws with
    | cons x xs =>
      rw [if_neg (by simp)]
      simp
    | nil =>
      have hdws : ∀ x ∈ d, py_is_ws x = true := by
        intro x hx
        exact List.dropWhile_eq_nil_iff.mp hdd x hx
      rw [if_neg (by simp)]
      rw [takeWhile_all_self py_is_ws d hdws]
      have hkeep : (List.dropWhile (fun x => x = '\n')
          (((ch :: (ct ++ d)).drop 1).reverse)) = (ct ++ d).reverse := by
        have hstep : ((ch :: (ct ++ d)).drop 1) = ct ++ d := by simp
        rw [hstep]
        apply dropWhile_all_neg
        intro x hx
        have hxm : x ∈ ct ++ d := List.mem_reverse.mp hx
        have hxln : x ∈ a ++ (bh :: bt) ++ (ch :: ct) ++ d := by
          rcases List.mem_append.mp hxm with h1 | h2
          · simp [h1]
          · simp [h2]
        have hxne : ¬ x = '\n' := by
          intro hcontra
          rw [hcontra] at hxln
          exact hnl hxln
        simp [hxne]
      rw [hkeep]
      obtain ⟨k, kt, hk⟩ :=
        List.exists_cons_of_ne_nil (show (ct ++ d).reverse ≠ [] by simp [hd])
      rw [hk]
      simp

def c8doc_bad : String := "# Р\n| 1 | S | **T** - D | E | src |"

def c8doc_good : String := "## Р\n| 1 | S | **T** - D | E | src |"

def c8payload : Payload :=
  { case_data :=
      { region_name := "Р", sector_name := "S", title := "T", summary := "D",
        detailed_notes := some "src", key_effect_note := "E" }
    economic_effects :=
      [{ effect_type := "text_note", value_numeric := none, currency := none,
         period_note := "E" }]
    technology_drivers := [] }

/-- C8 counterexample: the line `"# Р"` consists of one `#` followed by
whitespace and text, yet it is not treated as a section header (the
pattern requires two or more `#`): the document under it yields no section
match and no payload, while the same document under `"## Р"` yields one. -/
theorem c8_counterexample :
    chars "# Р" = ['#'] ++ [' '] ++ chars "Р" ∧
    section_header_matches (chars c8doc_bad) = [] ∧
    parse_agent_output c8doc_bad = [] ∧
    parse_agent_output c8doc_good = [c8payload] := by
  refine ⟨by decide, by decide, by decide, by decide⟩

/-- C8 amended: (1) a newline-free line is matched as a section heading
exactly when it splits as optional whitespace, TWO or more `#`, at least
one whitespace character, and non-empty trailing text; (2) every match
found in a document sits at a line start, is a genuine heading match
whose end lies within the document, and consecutive matches are ordered
so each section body runs from its match's end to the next match's start
(or the document's end). -/
theorem c8_amended :
    (∀ ln : List Char, '\n' ∉ ln →
      (section_header_matches ln ≠ [] ↔
        ∃ a b c d, ln = a ++ b ++ c ++ d ∧
          (∀ x ∈ a, py_is_ws x = true) ∧ (∀ x ∈ b, x = '#') ∧ 2 ≤ b.length ∧
          (∀ x ∈ c, py_is_ws x = true) ∧ 1 ≤ c.length ∧ d ≠ [])) ∧
    (∀ s : List Char,
      (∀ m ∈ section_header_matches s,
        line_start_b s m.1 = true ∧
        match_heading_from s m.1 = some (m.2.1, m.2.2) ∧
        m.1 < m.2.1 ∧ m.2.1 ≤ s.length) ∧
      List.Chain' (fun m1 m2 => m1.2.1 ≤ m2.1) (section_header_matches s)) := by
  constructor
  · intro ln hnl
    rw [← match_heading_iff_decomp ln hnl]
    rw [section_header_matches_single_line ln hnl]
    cases h : match_heading_from ln 0 with
    | none => simp [h]
    | some eg => simp [h]
  · intro s
    obtain ⟨hm, hc⟩ := section_matches_aux_sound s (s.length + 1) 0
    refine ⟨?_, hc⟩
    intro m hmem
    obtain ⟨-, h2, h3⟩ := hm m hmem
    obtain ⟨h4, h5⟩ := match_heading_bounds h3
    exact ⟨h2, h3, h4, h5⟩

theorem c8_amended_witness : section_header_matches (chars "## Р") ≠ [] :=
  (c8_amended.1 (chars "## Р") (by decide)).mpr
    ⟨[], ['#', '#'], [' '], chars "Р", by decide, by decide, by decide, by decide,
      by decide, by decide, by decide⟩
